import Mathlib

/-!
Shallow embedding of the howtrader event engine
(`src/howtrader/event/engine.py`) and verification of its specification.

The Python module defines an `Event` value (a type string plus an opaque
payload), and an `EventEngine` holding `n` shard queues with one worker
thread each, a timer thread, a `defaultdict(list)` mapping type strings to
handler lists, and a list of general handlers.

Modelling choices:
* A Python `dict` with string keys is embedded as an insertion-ordered
  association list with unique keys (`dlookup` / `dset` / `dpop`).
* Handlers are opaque values of a type `H` with decidable equality
  (Python compares callables by identity for `in` / `remove`).
* Dispatch is observed through its trace: the list of
  (handler, event) invocations that `_process` performs, in order.
* Exceptions raised by handlers are modelled by a behaviour function
  `beh : H → Event α → Bool` (`true` = the call raises); `processExc` and
  `runWorkerExc` propagate a raise exactly as CPython does: the list
  comprehension in `_process` stops, and in `_run` only `queue.Empty` is
  caught, so any other exception terminates the worker loop.
* Runtime errors of the Python standard library that engine methods can
  surface (`ZeroDivisionError` from `% 0`, `IndexError` from indexing the
  queue list, `RuntimeError` from `Thread.join` on a never-started thread
  or `Thread.start` on an already-started one) are modelled by `PyError`.
* The built-in `hash` on strings is an arbitrary parameter
  `hh : String → Int`, fixed per process run; Python's `%` with a positive
  right operand agrees with `Int.emod`.
-/

set_option autoImplicit false
set_option linter.unusedSectionVars false

namespace Howtrader

/-- Timer event type constant from the source (`EVENT_TIMER = "eTimer"`). -/
def EVENT_TIMER : String := "eTimer"

/-- An event: a type string used for routing plus an opaque optional payload
(`data: Any = None` in the source). -/
structure Event (α : Type) where
  type : String
  data : Option α := none
deriving DecidableEq

/-- Python runtime errors that the engine's methods can raise. -/
inductive PyError where
  | zeroDivision
  | indexError
  | joinUnstarted
  | doubleStart
deriving DecidableEq

variable {H : Type} {α : Type} [DecidableEq H]

/-- Lookup in the association-list embedding of a Python `dict` keyed by
strings: the value at the first matching key, if any. -/
def dlookup : List (String × List H) → String → Option (List H)
  | [], _ => none
  | (k, v) :: rest, t => if k = t then some v else dlookup rest t

/-- Store a value at a key in the `dict` embedding: replaces the value at the
first matching key in place, or appends a new entry at the end (Python dicts
preserve insertion order). -/
def dset : List (String × List H) → String → List H → List (String × List H)
  | [], t, v => [(t, v)]
  | (k, w) :: rest, t, v =>
    if k = t then (k, v) :: rest else (k, w) :: dset rest t v

/-- Remove the entry at a key in the `dict` embedding (`dict.pop`); no-op if
the key is absent. -/
def dpop : List (String × List H) → String → List (String × List H)
  | [], _ => []
  | (k, v) :: rest, t => if k = t then rest else (k, v) :: dpop rest t

/-- State of `EventEngine`. `queues` holds the shard queues (front = next to
be dequeued); `started` records whether `start()` has run, standing for the
started/unstarted status that all threads of the engine share. -/
structure EventEngine (H : Type) (α : Type) where
  interval : Int
  n : Int
  queues : List (List (Event α))
  active : Bool
  started : Bool
  handlers : List (String × List H)
  general_handlers : List H

namespace EventEngine

/-- `__init__(interval=1, n=5)`: performs no validation; builds `n` empty
queues (`range(n)` is empty for `n ≤ 0`), an inactive engine, an empty
`defaultdict(list)` of handlers and an empty general-handler list. -/
def init (interval : Int) (n : Int) : EventEngine H α :=
  { interval := interval
    n := n
    queues := List.replicate n.toNat []
    active := false
    started := false
    handlers := []
    general_handlers := [] }

/-- Handlers registered for a type: the dict entry, or `[]` when absent. -/
def handlersFor (s : EventEngine H α) (type : String) : List H :=
  (dlookup s.handlers type).getD []

/-- `register(type, handler)`: the `defaultdict` access materialises the
entry for `type`; the handler is appended only if not already present. -/
def register (s : EventEngine H α) (type : String) (handler : H) :
    EventEngine H α :=
  let handler_list := s.handlersFor type
  let handler_list2 :=
    if handler ∈ handler_list then handler_list else handler_list ++ [handler]
  { s with handlers := dset s.handlers type handler_list2 }

/-- `unregister(type, handler)`: removes the first occurrence of the handler
if present; if the list is then empty the entry is popped from the dict.
When `type` was absent, the `defaultdict` access creates an empty entry that
the final `pop` immediately removes, so the net effect on the mapping is
`dpop` of the original. -/
def unregister (s : EventEngine H α) (type : String) (handler : H) :
    EventEngine H α :=
  let handler_list := s.handlersFor type
  let handler_list2 :=
    if handler ∈ handler_list then handler_list.erase handler else handler_list
  if handler_list2.isEmpty then { s with handlers := dpop s.handlers type }
  else { s with handlers := dset s.handlers type handler_list2 }

/-- `register_general(handler)`: appends if not already present. -/
def register_general (s : EventEngine H α) (handler : H) : EventEngine H α :=
  if handler ∈ s.general_handlers then s
  else { s with general_handlers := s.general_handlers ++ [handler] }

/-- `unregister_general(handler)`: removes the first occurrence if present. -/
def unregister_general (s : EventEngine H α) (handler : H) : EventEngine H α :=
  if handler ∈ s.general_handlers then
    { s with general_handlers := s.general_handlers.erase handler }
  else s

/-- Trace of `_process(event)` when no handler raises: the type-specific
handlers (only when `event.type in self._handlers`), then the general
handlers (the truthiness guard `if self._general_handlers:` skips an empty
list). Each element is one `handler(event)` invocation, in program order. -/
def process (s : EventEngine H α) (e : Event α) : List (H × Event α) :=
  (match dlookup s.handlers e.type with
   | some hl => hl.map (fun h => (h, e))
   | none => [])
  ++ (if s.general_handlers.isEmpty then []
      else s.general_handlers.map (fun h => (h, e)))

/-- One worker's `_run` loop over the events its shard queue delivers, when
no handler raises: each event is fully processed before the next is taken. -/
def runWorker (s : EventEngine H α) : List (Event α) → List (H × Event α)
  | [] => []
  | e :: rest => s.process e ++ runWorker s rest

/-- Run a handler list under the behaviour `beh` (`beh h e = true` means the
call `h(e)` raises). Returns the invocations performed and whether a raise
escaped: the list comprehension in `_process` stops at the first raising
handler and the exception propagates. -/
def runHandlersExc (beh : H → Event α → Bool) (e : Event α) :
    List H → List (H × Event α) × Bool
  | [] => ([], false)
  | h :: rest =>
    if beh h e then ([(h, e)], true)
    else
      let r := runHandlersExc beh e rest
      ((h, e) :: r.1, r.2)

/-- `_process(event)` under the raise model: a raise in the type-specific
pass propagates before the general pass starts. -/
def processExc (beh : H → Event α → Bool) (s : EventEngine H α)
    (e : Event α) : List (H × Event α) × Bool :=
  let r1 := runHandlersExc beh e
    (match dlookup s.handlers e.type with
     | some hl => hl
     | none => [])
  if r1.2 then r1
  else
    let r2 := runHandlersExc beh e
      (if s.general_handlers.isEmpty then [] else s.general_handlers)
    (r1.1 ++ r2.1, r2.2)

/-- One worker's `_run` loop under the raise model: `except Empty` is the
only handler around `self._process(event)`, so any exception a handler
raises propagates out of the `while` loop and the worker terminates,
leaving the rest of its queue unprocessed. The Bool records whether the
worker died this way. -/
def runWorkerExc (beh : H → Event α → Bool) (s : EventEngine H α) :
    List (Event α) → List (H × Event α) × Bool
  | [] => ([], false)
  | e :: rest =>
    let r := processExc beh s e
    if r.2 then r
    else
      let r2 := runWorkerExc beh s rest
      (r.1 ++ r2.1, r2.2)

/-- Shard index used by `put`: `hash(event.type) % self._n`, as a list
index. For `n > 0` Python's `%` agrees with `Int.emod` and the result is in
`[0, n)`. -/
def shardIndex (hh : String → Int) (n : Int) (t : String) : Nat :=
  (hh t % n).toNat

/-- `put(event)`: `index = hash(event.type) % self._n` raises
`ZeroDivisionError` when `n = 0`; `self._queues[index]` raises `IndexError`
when the index does not address a queue (for states built by `init` this
happens exactly when `n < 0`, where the queue list is empty; Python's
negative-index wrap-around never produces a valid index there); otherwise
the event is appended at the back of that shard queue. -/
def put (hh : String → Int) (s : EventEngine H α) (e : Event α) :
    Except PyError (EventEngine H α) :=
  if s.n = 0 then Except.error PyError.zeroDivision
  else
    let i : Int := hh e.type % s.n
    if 0 ≤ i ∧ i.toNat < s.queues.length then
      Except.ok { s with
        queues := s.queues.set i.toNat (s.queues.getD i.toNat [] ++ [e]) }
    else Except.error PyError.indexError

/-- `start()`: sets the active flag and starts all threads; starting an
already-started `Thread` raises `RuntimeError` (the flag write precedes the
failing `Thread.start`). -/
def start (s : EventEngine H α) : EventEngine H α × Option PyError :=
  if s.started then ({ s with active := true }, some PyError.doubleStart)
  else ({ s with active := true, started := true }, none)

/-- `stop()`: clears the active flag, then joins the timer thread and every
worker thread. `Thread.join` on a thread that was never started raises
`RuntimeError` (CPython: cannot join thread before it is started); joining
an already-finished thread returns immediately. The flag write happens
before the failing join. -/
def stop (s : EventEngine H α) : EventEngine H α × Option PyError :=
  ({ s with active := false },
   if s.started then none else some PyError.joinUnstarted)

end EventEngine

/-- Registry operations, for stating properties of operation sequences. -/
inductive Op (H : Type) where
  | reg (type : String) (handler : H)
  | unreg (type : String) (handler : H)
  | regGen (handler : H)
  | unregGen (handler : H)

/-- Apply one registry operation. -/
def applyOp (s : EventEngine H α) : Op H → EventEngine H α
  | .reg T h => s.register T h
  | .unreg T h => s.unregister T h
  | .regGen h => s.register_general h
  | .unregGen h => s.unregister_general h

/-- Apply a sequence of registry operations, left to right. -/
def applyOps (s : EventEngine H α) : List (Op H) → EventEngine H α
  | [] => s
  | op :: rest => applyOps (applyOp s op) rest

/-- Concrete event type strings used in witnesses. -/
def typeX : String := "X"

/-- A second concrete event type string used in witnesses. -/
def typeY : String := "Y"

/-- A sample engine used by witnesses. -/
def s0 : EventEngine Nat Nat := EventEngine.init 1 5

/-- A sample hash function standing in for Python's string `hash`. -/
def hashLen : String → Int := fun t => t.length

/-- A sample handler behaviour: handler `0` raises on every event, every
other handler returns normally. -/
def behRaises0 : Nat → Event Nat → Bool := fun h _ => h == 0

/-- Sample engine with the raising handler `0` registered before handler `1`
for `typeY`. -/
def sY : EventEngine Nat Nat := (s0.register typeY 0).register typeY 1

/-- A sample event of `typeY`. -/
def eY : Event Nat := Event.mk typeY none

/-! ### Lemmas about the dict embedding -/

theorem dlookup_dset_self (m : List (String × List H)) (t : String)
    (v : List H) : dlookup (dset m t v) t = some v := by
  induction m with
  | nil => simp [dset, dlookup]
  | cons p rest ih =>
    obtain ⟨k, w⟩ := p
    by_cases h : k = t <;> simp [dset, dlookup, h, ih]

theorem dlookup_dset_ne (m : List (String × List H)) (t t' : String)
    (v : List H) (h : t' ≠ t) : dlookup (dset m t v) t' = dlookup m t' := by
  induction m with
  | nil => simp [dset, dlookup, h.symm]
  | cons p rest ih =>
    obtain ⟨k, w⟩ := p
    by_cases hk : k = t
    · subst hk
      simp [dset, dlookup, h.symm]
    · simp [dset, dlookup, hk, ih]

theorem dlookup_dpop_ne (m : List (String × List H)) (t t' : String)
    (h : t' ≠ t) : dlookup (dpop m t) t' = dlookup m t' := by
  induction m with
  | nil => simp [dpop]
  | cons p rest ih =>
    obtain ⟨k, w⟩ := p
    by_cases hk : k = t
    · subst hk
      simp [dpop, dlookup, h.symm]
    · simp [dpop, dlookup, hk, ih]

theorem dset_eq_self_of_dlookup (m : List (String × List H)) (t : String)
    (v : List H) (h : dlookup m t = some v) : dset m t v = m := by
  induction m with
  | nil => simp [dlookup] at h
  | cons p rest ih =>
    obtain ⟨k, w⟩ := p
    by_cases hk : k = t
    · subst hk
      simp [dlookup] at h
      simp [dset, h]
    · simp [dlookup, hk] at h
      simp [dset, hk, ih h]

theorem dpop_eq_self_of_dlookup_none (m : List (String × List H))
    (t : String) (h : dlookup m t = none) : dpop m t = m := by
  induction m with
  | nil => simp [dpop]
  | cons p rest ih =>
    obtain ⟨k, w⟩ := p
    by_cases hk : k = t
    · subst hk
      simp [dlookup] at h
    · simp [dlookup, hk] at h
      simp [dpop, hk, ih h]

theorem dpop_dset (m : List (String × List H)) (t : String) (v : List H) :
    dpop (dset m t v) t = dpop m t := by
  induction m with
  | nil => simp [dset, dpop]
  | cons p rest ih =>
    obtain ⟨k, w⟩ := p
    by_cases hk : k = t <;> simp [dset, dpop, hk, ih]

theorem mem_dset (p : String × List H) (m : List (String × List H))
    (t : String) (v : List H) (h : p ∈ dset m t v) : p ∈ m ∨ p = (t, v) := by
  induction m with
  | nil => simp [dset] at h; simp [h]
  | cons q rest ih =>
    obtain ⟨k, w⟩ := q
    by_cases hk : k = t
    · subst hk
      simp [dset] at h
      rcases h with h | h
      · right; simp [h]
      · left; simp [h]
    · simp [dset, hk] at h
      rcases h with h | h
      · left; simp [h]
      · rcases ih h with h2 | h2
        · left; simp [h2]
        · right; exact h2

theorem mem_dpop (p : String × List H) (m : List (String × List H))
    (t : String) (h : p ∈ dpop m t) : p ∈ m := by
  induction m with
  | nil => simp [dpop] at h
  | cons q rest ih =>
    obtain ⟨k, w⟩ := q
    by_cases hk : k = t
    · subst hk
      simp [dpop] at h
      simp [h]
    · simp [dpop, hk] at h
      rcases h with h | h
      · simp [h]
      · simp [ih h]

/-! ### Lemmas about dispatch and the registry operations -/

/-- The truthiness guard on the general pass is redundant: the trace of
`_process` is always the type-specific handlers followed by the general
handlers. -/
theorem process_eq (s : EventEngine H α) (e : Event α) :
    s.process e = (s.handlersFor e.type).map (fun h => (h, e))
      ++ s.general_handlers.map (fun h => (h, e)) := by
  unfold EventEngine.process EventEngine.handlersFor
  cases hl : dlookup s.handlers e.type <;>
    cases hg : s.general_handlers <;> simp [hl, hg]

theorem register_general_handlers_eq (s : EventEngine H α) (T : String)
    (h : H) : (s.register T h).general_handlers = s.general_handlers := rfl

theorem unregister_general_handlers_eq (s : EventEngine H α) (T : String)
    (h : H) : (s.unregister T h).general_handlers = s.general_handlers := by
  simp only [EventEngine.unregister]
  split <;> split <;> rfl

theorem register_general_frame (s : EventEngine H α) (h : H) :
    (s.register_general h).handlers = s.handlers := by
  unfold EventEngine.register_general
  split <;> rfl

theorem unregister_general_frame (s : EventEngine H α) (h : H) :
    (s.unregister_general h).handlers = s.handlers := by
  unfold EventEngine.unregister_general
  split <;> rfl

/-- The handlers mapping after `unregister` is either a `dpop` or a `dset`
of the original at the unregistered type. -/
theorem unregister_handlers_cases (s : EventEngine H α) (T : String)
    (h : H) :
    (s.unregister T h).handlers = dpop s.handlers T ∨
    ∃ v, v ≠ [] ∧ (s.unregister T h).handlers = dset s.handlers T v := by
  simp only [EventEngine.unregister]
  split <;> split <;> first
    | (left; rfl)
    | (right
       rename_i hne
       refine ⟨_, ?_, rfl⟩
       intro hcon
       rw [hcon] at hne
       simp at hne)

theorem handlersFor_eq_of_dlookup (s : EventEngine H α) (T : String)
    (l : List H) (h : dlookup s.handlers T = some l) : s.handlersFor T = l := by
  unfold EventEngine.handlersFor
  rw [h]
  rfl

theorem dlookup_eq_some_of_mem_handlersFor (s : EventEngine H α) (T : String)
    (h : H) (hmem : h ∈ s.handlersFor T) :
    dlookup s.handlers T = some (s.handlersFor T) := by
  unfold EventEngine.handlersFor at *
  cases hd : dlookup s.handlers T with
  | none => rw [hd] at hmem; simp at hmem
  | some l => simp

/-- Concatenating shard-queue segments concatenates the worker's traces. -/
theorem runWorker_append (s : EventEngine H α) (q1 q2 : List (Event α)) :
    s.runWorker (q1 ++ q2) = s.runWorker q1 ++ s.runWorker q2 := by
  induction q1 with
  | nil => rfl
  | cons e rest ih => simp [EventEngine.runWorker, ih, List.append_assoc]

/-! ### Claim theorems -/

/-- C5: events on the same shard queue are dispatched in enqueue order: the
worker's trace over its queue is the concatenation of the per-event
dispatch traces in queue order, so an event enqueued earlier is fully
dispatched to every applicable handler before any later event on the same
shard is dispatched. -/
theorem worker_fifo_dispatch (s : EventEngine H α) (q1 q2 q3 : List (Event α))
    (e1 e2 : Event α) :
    s.runWorker (q1 ++ e1 :: q2 ++ e2 :: q3)
      = s.runWorker q1 ++ s.process e1 ++ s.runWorker q2
        ++ s.process e2 ++ s.runWorker q3 := by
  have h1 : q1 ++ e1 :: q2 ++ e2 :: q3
      = q1 ++ ([e1] ++ (q2 ++ ([e2] ++ q3))) := by simp
  rw [h1, runWorker_append, runWorker_append, runWorker_append]
  simp [EventEngine.runWorker, List.append_assoc]

/-- C3: registering a handler that is already registered for the same type
leaves the whole engine state unchanged, and (as long as that type's handler
list is duplicate-free and the handler is not also a general handler) the
handler is invoked exactly once when an event of that type is processed. -/
theorem register_idempotent (s : EventEngine H α) (T : String) (h : H)
    (e : Event α) (hmem : h ∈ s.handlersFor T)
    (hnd : (s.handlersFor T).Nodup) (hgen : h ∉ s.general_handlers)
    (he : e.type = T) :
    s.register T h = s ∧
    (((s.register T h).process e).map Prod.fst).count h = 1 := by
  have hsome : dlookup s.handlers T = some (s.handlersFor T) :=
    dlookup_eq_some_of_mem_handlersFor s T h hmem
  have hreg : s.register T h = s := by
    have hd : dset s.handlers T (s.handlersFor T) = s.handlers :=
      dset_eq_self_of_dlookup _ _ _ hsome
    simp only [EventEngine.register, if_pos hmem, hd]
  refine ⟨hreg, ?_⟩
  rw [hreg, process_eq, he]
  have hmap : ∀ l : List H,
      (l.map (fun x => (x, e))).map Prod.fst = l := by
    intro l
    induction l with
    | nil => rfl
    | cons a tl ih => simp [ih]
  rw [List.map_append, hmap, hmap, List.count_append]
  rw [List.count_eq_one_of_mem hnd hmem, List.count_eq_zero.mpr hgen]

/-- C3 witness. -/
theorem register_idempotent_witness :
    0 ∈ (s0.register typeX 0).handlersFor typeX ∧
    ((s0.register typeX 0).handlersFor typeX).Nodup ∧
    0 ∉ (s0.register typeX 0).general_handlers ∧
    ((s0.register typeX 0).register typeX 0 = s0.register typeX 0 ∧
     ((((s0.register typeX 0).register typeX 0).process
        (Event.mk typeX none)).map Prod.fst).count 0 = 1) :=
  ⟨by decide, by decide, by decide,
    register_idempotent (s0.register typeX 0) typeX 0 (Event.mk typeX none)
      (by decide) (by decide) (by decide) rfl⟩

/-- C4: starting from a registry with no entry for a type, registering and
then unregistering one handler restores the engine state exactly, the
mapping has no entry for that type afterwards, and processing an event of
that type then invokes only the general handlers. -/
theorem register_unregister_prunes (s : EventEngine H α) (T : String)
    (h : H) (e : Event α) (habs : dlookup s.handlers T = none)
    (he : e.type = T) :
    (s.register T h).unregister T h = s ∧
    dlookup ((s.register T h).unregister T h).handlers T = none ∧
    ((s.register T h).unregister T h).process e
      = s.general_handlers.map (fun g => (g, e)) := by
  have h0 : s.handlersFor T = [] := by
    unfold EventEngine.handlersFor
    rw [habs]
    rfl
  have hreg : s.register T h = { s with handlers := dset s.handlers T [h] } := by
    simp only [EventEngine.register, h0]
    simp
  have hfor1 : (s.register T h).handlersFor T = [h] := by
    rw [hreg]
    unfold EventEngine.handlersFor
    simp [dlookup_dset_self]
  have hun : (s.register T h).unregister T h = s := by
    simp only [EventEngine.unregister, hfor1]
    simp only [List.mem_singleton, if_pos, List.erase_cons_head,
      List.isEmpty_nil, if_true]
    rw [hreg]
    simp only
    rw [dpop_dset, dpop_eq_self_of_dlookup_none _ _ habs]
  refine ⟨hun, ?_, ?_⟩
  · rw [hun]
    exact habs
  · rw [hun, process_eq, he, h0]
    simp

/-- C4 witness. -/
theorem register_unregister_prunes_witness :
    dlookup s0.handlers typeX = none ∧
    ((s0.register typeX 7).unregister typeX 7 = s0 ∧
     dlookup ((s0.register typeX 7).unregister typeX 7).handlers typeX
       = none ∧
     ((s0.register typeX 7).unregister typeX 7).process (Event.mk typeX none)
       = s0.general_handlers.map (fun g => (g, Event.mk typeX none))) :=
  ⟨by decide,
    register_unregister_prunes s0 typeX 7 (Event.mk typeX none) (by decide)
      rfl⟩

/-- C10: `register`/`unregister` for a type modify at most that type's
mapping entry and leave the general handlers unchanged;
`register_general`/`unregister_general` leave the type-to-handler mapping
unchanged. -/
theorem registry_frame (s : EventEngine H α) (T T' : String) (h h2 : H)
    (hne : T' ≠ T) :
    dlookup (s.register T h).handlers T' = dlookup s.handlers T' ∧
    (s.register T h).general_handlers = s.general_handlers ∧
    dlookup (s.unregister T h).handlers T' = dlookup s.handlers T' ∧
    (s.unregister T h).general_handlers = s.general_handlers ∧
    (s.register_general h2).handlers = s.handlers ∧
    (s.unregister_general h2).handlers = s.handlers := by
  refine ⟨?_, rfl, ?_, unregister_general_handlers_eq s T h,
    register_general_frame s h2, unregister_general_frame s h2⟩
  · simp only [EventEngine.register]
    exact dlookup_dset_ne _ _ _ _ hne
  · rcases unregister_handlers_cases s T h with hc | ⟨v, _, hc⟩
    · rw [hc]
      exact dlookup_dpop_ne _ _ _ hne
    · rw [hc]
      exact dlookup_dset_ne _ _ _ _ hne

/-- C10 witness. -/
theorem registry_frame_witness :
    typeY ≠ typeX ∧
    (dlookup (s0.register typeX 0).handlers typeY
       = dlookup s0.handlers typeY ∧
     (s0.register typeX 0).general_handlers = s0.general_handlers ∧
     dlookup (s0.unregister typeX 0).handlers typeY
       = dlookup s0.handlers typeY ∧
     (s0.unregister typeX 0).general_handlers = s0.general_handlers ∧
     (s0.register_general 1).handlers = s0.handlers ∧
     (s0.unregister_general 1).handlers = s0.handlers) :=
  ⟨by decide, registry_frame s0 typeX typeY 0 1 (by decide)⟩

/-- C8 counterexample: construction with a non-positive timer interval and a
shard count below 1 is not rejected: `__init__` validates nothing and
returns a Stopped engine (here with an empty queue list). -/
theorem init_no_validation_cex :
    (EventEngine.init (H := Nat) (α := Nat) 0 0).active = false ∧
    (EventEngine.init (H := Nat) (α := Nat) 0 0).queues = [] ∧
    (EventEngine.init (H := Nat) (α := Nat) (-3) (-2)).active = false ∧
    (EventEngine.init (H := Nat) (α := Nat) (-3) (-2)).queues = [] := by
  refine ⟨rfl, rfl, rfl, rfl⟩

/-- C8 amended: construction never rejects its arguments; for every interval
and shard count it yields an engine in the Stopped state, with
`max(shard_count, 0)` empty shard queues and empty registries. -/
theorem init_total_stopped (interval n : Int) :
    (EventEngine.init (H := H) (α := α) interval n).active = false ∧
    (EventEngine.init (H := H) (α := α) interval n).started = false ∧
    (EventEngine.init (H := H) (α := α) interval n).queues.length = n.toNat ∧
    (EventEngine.init (H := H) (α := α) interval n).interval = interval ∧
    (EventEngine.init (H := H) (α := α) interval n).n = n ∧
    (EventEngine.init (H := H) (α := α) interval n).handlers = [] ∧
    (EventEngine.init (H := H) (α := α) interval n).general_handlers = [] := by
  simp [EventEngine.init]

/-- C9 counterexample: `stop()` on a never-started engine is not a no-op
that returns without error: `Thread.join` on the unstarted timer thread
raises `RuntimeError`. -/
theorem stop_unstarted_raises_cex :
    (s0.stop).2 = some PyError.joinUnstarted := rfl

/-- C9 amended: `stop()` on an engine whose threads have been started and
whose active flag is already cleared (stopped after a start) is a no-op: it
returns without error and leaves the state unchanged; but on a never-started
engine the join of the unstarted timer thread raises `RuntimeError`. -/
theorem stop_noop_after_start (s : EventEngine H α) (hs : s.started = true)
    (ha : s.active = false) : s.stop = (s, none) := by
  obtain ⟨i, n, q, a, st, hm, g⟩ := s
  simp_all [EventEngine.stop]

/-- C9 witness. -/
theorem stop_noop_after_start_witness :
    ((s0.start).1.stop).1.started = true ∧
    ((s0.start).1.stop).1.active = false ∧
    ((s0.start).1.stop).1.stop = (((s0.start).1.stop).1, none) :=
  ⟨rfl, rfl, stop_noop_after_start ((s0.start).1.stop).1 rfl rfl⟩

theorem applyOps_append (s : EventEngine H α) (a b : List (Op H)) :
    applyOps s (a ++ b) = applyOps (applyOps s a) b := by
  induction a generalizing s with
  | nil => rfl
  | cons op rest ih => simp [applyOps, ih]

/-- Registering a fresh handler appends it to the end of the type's list. -/
theorem register_dlookup_append (s : EventEngine H α) (T : String) (h : H)
    (l : List H) (hl : dlookup s.handlers T = some l) (hmem : h ∉ l) :
    dlookup (s.register T h).handlers T = some (l ++ [h]) := by
  have hfor : s.handlersFor T = l := handlersFor_eq_of_dlookup s T l hl
  simp only [EventEngine.register, hfor, if_neg hmem]
  exact dlookup_dset_self _ _ _

/-- Registering a duplicate-free batch of fresh handlers for one type
appends them, in order, to the type's list. -/
theorem dlookup_applyOps_regs (T : String) (ts : List H)
    (s : EventEngine H α) (l : List H)
    (hl : dlookup s.handlers T = some l)
    (hnd : ts.Nodup) (hdisj : ∀ x ∈ ts, x ∉ l) :
    dlookup (applyOps s (ts.map (Op.reg T))).handlers T = some (l ++ ts) := by
  induction ts generalizing s l with
  | nil => simpa using hl
  | cons h rest ih =>
    simp only [List.map_cons, applyOps, applyOp]
    have hreg := register_dlookup_append s T h l hl (hdisj h (by simp))
    have hside : ∀ x ∈ rest, x ∉ l ++ [h] := by
      intro x hx2
      simp only [List.mem_append, List.mem_singleton]
      rintro (hxl | hxh)
      · exact hdisj x (by simp [hx2]) hxl
      · subst hxh
        exact (List.nodup_cons.mp hnd).1 hx2
    have hx := ih (s.register T h) (l ++ [h]) hreg hnd.of_cons hside
    simpa using hx

/-- Type-specific registrations do not touch the general handlers. -/
theorem general_applyOps_regs (T : String) (ts : List H)
    (s : EventEngine H α) :
    (applyOps s (ts.map (Op.reg T))).general_handlers
      = s.general_handlers := by
  induction ts generalizing s with
  | nil => rfl
  | cons h rest ih =>
    simp only [List.map_cons, applyOps, applyOp]
    rw [ih]
    rfl

/-- Registering a duplicate-free batch of fresh general handlers appends
them in order to the general list and leaves the type mapping unchanged. -/
theorem applyOps_regGens (gs : List H) (s : EventEngine H α)
    (hnd : gs.Nodup) (hdisj : ∀ x ∈ gs, x ∉ s.general_handlers) :
    (applyOps s (gs.map Op.regGen)).general_handlers
        = s.general_handlers ++ gs ∧
    (applyOps s (gs.map Op.regGen)).handlers = s.handlers := by
  induction gs generalizing s with
  | nil => simp [applyOps]
  | cons g rest ih =>
    simp only [List.map_cons, applyOps, applyOp]
    have hg : g ∉ s.general_handlers := hdisj g (by simp)
    have hrg : s.register_general g
        = { s with general_handlers := s.general_handlers ++ [g] } := by
      simp [EventEngine.register_general, hg]
    rw [hrg]
    have hside : ∀ x ∈ rest,
        x ∉ s.general_handlers ++ [g] := by
      intro x hx
      simp only [List.mem_append, List.mem_singleton]
      rintro (h1 | h1)
      · exact hdisj x (by simp [hx]) h1
      · subst h1
        exact (List.nodup_cons.mp hnd).1 hx
    obtain ⟨h1, h2⟩ := ih { s with general_handlers :=
      s.general_handlers ++ [g] } hnd.of_cons hside
    refine ⟨?_, ?_⟩
    · rw [h1]
      simp
    · rw [h2]

/-- C1: after registering duplicate-free handlers `ts` for a type `T` and
then duplicate-free general handlers `gs`, processing an event of type `T`
invokes first every `ts` handler in registration order and then every
general handler in registration order — also when `ts` is empty, so general
handlers run for events whose type has zero type-specific handlers. -/
theorem process_dispatch_order (ts gs : List H) (T : String) (e : Event α)
    (h1 : ts.Nodup) (h2 : gs.Nodup) (he : e.type = T) :
    (applyOps (EventEngine.init 1 5)
        (ts.map (Op.reg T) ++ gs.map Op.regGen)).process e
      = ts.map (fun h => (h, e)) ++ gs.map (fun h => (h, e)) := by
  rw [applyOps_append]
  have hgen0 : (applyOps (EventEngine.init (H := H) (α := α) 1 5)
      (ts.map (Op.reg T))).general_handlers = [] :=
    general_applyOps_regs T ts _
  obtain ⟨hgacc, hframe⟩ := applyOps_regGens gs
    (applyOps (EventEngine.init 1 5) (ts.map (Op.reg T))) h2
    (by rw [hgen0]; simp)
  rw [process_eq, he]
  have hgen : (applyOps (applyOps (EventEngine.init (H := H) (α := α) 1 5)
      (ts.map (Op.reg T))) (gs.map Op.regGen)).general_handlers = gs := by
    rw [hgacc, hgen0]
    simp
  have hfor : (applyOps (applyOps (EventEngine.init (H := H) (α := α) 1 5)
      (ts.map (Op.reg T))) (gs.map Op.regGen)).handlersFor T = ts := by
    unfold EventEngine.handlersFor
    rw [hframe]
    cases ts with
    | nil => rfl
    | cons t rest =>
      have h0 : dlookup ((EventEngine.init (H := H) (α := α) 1
          5).register T t).handlers T = some [t] := by
        simp [EventEngine.register, EventEngine.handlersFor,
          EventEngine.init, dlookup, dset]
      have hside : ∀ x ∈ rest, x ∉ [t] := by
        intro x hx
        simp only [List.mem_singleton]
        intro hxt
        subst hxt
        exact (List.nodup_cons.mp h1).1 hx
      have hacc := dlookup_applyOps_regs T rest
        ((EventEngine.init 1 5).register T t) [t] h0 h1.of_cons hside
      simp only [List.map_cons, applyOps, applyOp]
      rw [hacc]
      simp
  rw [hfor, hgen]

/-- C1 witness. -/
theorem process_dispatch_order_witness :
    ([2, 3] : List Nat).Nodup ∧ ([5] : List Nat).Nodup ∧
    (Event.mk typeX (none : Option Nat)).type = typeX ∧
    (applyOps (EventEngine.init 1 5)
        (([2, 3] : List Nat).map (Op.reg typeX)
          ++ ([5] : List Nat).map Op.regGen)).process
        (Event.mk typeX (none : Option Nat))
      = ([2, 3] : List Nat).map (fun h => (h, Event.mk typeX none))
        ++ ([5] : List Nat).map (fun h => (h, Event.mk typeX none)) :=
  ⟨by decide, by decide, rfl,
    process_dispatch_order [2, 3] [5] typeX (Event.mk typeX none)
      (by decide) (by decide) rfl⟩

theorem register_entries_nonempty (s : EventEngine H α) (T : String) (h : H)
    (hs : ∀ p ∈ s.handlers, p.2 ≠ []) :
    ∀ p ∈ (s.register T h).handlers, p.2 ≠ [] := by
  intro p hp
  simp only [EventEngine.register] at hp
  rcases mem_dset p s.handlers T _ hp with h1 | h1
  · exact hs p h1
  · rw [h1]
    dsimp only
    split
    · exact List.ne_nil_of_mem (by assumption)
    · simp

theorem unregister_entries_nonempty (s : EventEngine H α) (T : String)
    (h : H) (hs : ∀ p ∈ s.handlers, p.2 ≠ []) :
    ∀ p ∈ (s.unregister T h).handlers, p.2 ≠ [] := by
  rcases unregister_handlers_cases s T h with hc | ⟨v, hv, hc⟩ <;>
    rw [hc] <;> intro p hp
  · exact hs p (mem_dpop p s.handlers T hp)
  · rcases mem_dset p s.handlers T v hp with h1 | h1
    · exact hs p h1
    · rw [h1]
      exact hv

theorem applyOp_entries_nonempty (s : EventEngine H α) (op : Op H)
    (hs : ∀ p ∈ s.handlers, p.2 ≠ []) :
    ∀ p ∈ (applyOp s op).handlers, p.2 ≠ [] := by
  cases op with
  | reg T h => exact register_entries_nonempty s T h hs
  | unreg T h => exact unregister_entries_nonempty s T h hs
  | regGen h =>
    simp only [applyOp, register_general_frame]
    exact hs
  | unregGen h =>
    simp only [applyOp, unregister_general_frame]
    exact hs

theorem applyOps_entries_nonempty (ops : List (Op H)) (s : EventEngine H α)
    (hs : ∀ p ∈ s.handlers, p.2 ≠ []) :
    ∀ p ∈ (applyOps s ops).handlers, p.2 ≠ [] := by
  induction ops generalizing s with
  | nil => exact hs
  | cons op rest ih =>
    exact ih (applyOp s op) (applyOp_entries_nonempty s op hs)

/-- C7: after any sequence of register/unregister operations starting from a
freshly constructed engine, every type entry present in the handlers
mapping has a non-empty handler list. -/
theorem handlers_entries_nonempty (ops : List (Op H)) :
    ∀ p ∈ (applyOps (EventEngine.init (H := H) (α := α) 1 5) ops).handlers,
      p.2 ≠ [] :=
  applyOps_entries_nonempty ops _ (by
    intro p hp
    simp [EventEngine.init] at hp)

/-- C7 witness. -/
theorem handlers_entries_nonempty_witness :
    (typeX, [0]) ∈ (applyOps (EventEngine.init (H := Nat) (α := Nat) 1 5)
      [Op.reg typeX 0]).handlers ∧ ([0] : List Nat) ≠ [] :=
  ⟨by decide, handlers_entries_nonempty (H := Nat) (α := Nat)
    [Op.reg typeX 0] (typeX, [0]) (by decide)⟩

/-- C2 counterexample: with the raising handler `0` registered before
handler `1` for `typeY`, dispatching one `typeY` event invokes only handler
`0`; handler `1` is never invoked and the worker loop terminates. -/
theorem raising_handler_stops_dispatch_cex :
    (EventEngine.runWorkerExc behRaises0 sY [eY]).1 = [(0, eY)] ∧
    (EventEngine.runWorkerExc behRaises0 sY [eY]).2 = true ∧
    (1, eY) ∉ (EventEngine.runWorkerExc behRaises0 sY [eY]).1 := by
  decide

/-- A prefix of non-raising handlers followed by a raising one: the trace
stops right after the raising handler. -/
theorem runHandlersExc_raise (beh : H → Event α → Bool) (e : Event α)
    (pre : List H) (h : H) (post : List H)
    (hpre : ∀ x ∈ pre, beh x e = false) (hraise : beh h e = true) :
    EventEngine.runHandlersExc beh e (pre ++ h :: post)
      = ((pre ++ [h]).map (fun x => (x, e)), true) := by
  induction pre with
  | nil => simp [EventEngine.runHandlersExc, hraise]
  | cons a rest ih =>
    have ha : beh a e = false := hpre a (by simp)
    have ih2 := ih (fun x hx => hpre x (by simp [hx]))
    simp [EventEngine.runHandlersExc, ha, ih2]

theorem processExc_raise (beh : H → Event α → Bool) (s : EventEngine H α)
    (e : Event α) (pre : List H) (h : H) (post : List H)
    (hl : dlookup s.handlers e.type = some (pre ++ h :: post))
    (hpre : ∀ x ∈ pre, beh x e = false) (hraise : beh h e = true) :
    EventEngine.processExc beh s e
      = ((pre ++ [h]).map (fun x => (x, e)), true) := by
  simp only [EventEngine.processExc, hl]
  rw [runHandlersExc_raise beh e pre h post hpre hraise]
  simp

/-- C2 amended: when a type-specific handler raises during dispatch, the
exception propagates (only `queue.Empty` is caught in `_run`): the handlers
after it — type-specific and general — are not invoked for that event, and
the worker loop terminates, leaving the rest of its queue unprocessed. -/
theorem raising_handler_propagates (beh : H → Event α → Bool)
    (s : EventEngine H α) (e : Event α) (rest : List (Event α))
    (pre : List H) (h : H) (post : List H)
    (hl : dlookup s.handlers e.type = some (pre ++ h :: post))
    (hpre : ∀ x ∈ pre, beh x e = false) (hraise : beh h e = true) :
    EventEngine.runWorkerExc beh s (e :: rest)
      = ((pre ++ [h]).map (fun x => (x, e)), true) := by
  simp only [EventEngine.runWorkerExc]
  rw [processExc_raise beh s e pre h post hl hpre hraise]
  simp

/-- C2 amended witness. -/
theorem raising_handler_propagates_witness :
    dlookup sY.handlers eY.type = some ([] ++ 0 :: [1]) ∧
    behRaises0 0 eY = true ∧
    EventEngine.runWorkerExc behRaises0 sY [eY]
      = (([] ++ [0]).map (fun x => (x, eY)), true) :=
  ⟨by decide, by decide,
    raising_handler_propagates behRaises0 sY eY [] [] 0 [1] (by decide)
      (by intro x hx; simp at hx) (by decide)⟩

/-- C6: for an engine whose queue list has length `n > 0`, `put` appends the
event at the back of exactly the shard queue at index
`hash(event.type) % n`, and the index depends only on the type string, so
any two events with the same type land on the same shard queue. -/
theorem put_shard_routing (hh : String → Int) (s : EventEngine H α)
    (e : Event α) (hn : 0 < s.n) (hq : s.queues.length = s.n.toNat) :
    s.put hh e = Except.ok { s with
        queues := s.queues.set (EventEngine.shardIndex hh s.n e.type)
          (s.queues.getD (EventEngine.shardIndex hh s.n e.type) []
            ++ [e]) } ∧
    ∀ t : String, t = e.type →
      EventEngine.shardIndex hh s.n t
        = EventEngine.shardIndex hh s.n e.type := by
  have hn0 : s.n ≠ 0 := ne_of_gt hn
  have h0 : 0 ≤ hh e.type % s.n := Int.emod_nonneg _ hn0
  have h1 : hh e.type % s.n < s.n := Int.emod_lt_of_pos _ hn
  have h2 : (hh e.type % s.n).toNat < s.queues.length := by
    rw [hq]
    omega
  constructor
  · simp only [EventEngine.put, if_neg hn0]
    rw [if_pos ⟨h0, h2⟩]
    rfl
  · intro t ht
    rw [ht]

/-- C6 witness. -/
theorem put_shard_routing_witness :
    (0 : Int) < s0.n ∧ s0.queues.length = s0.n.toNat ∧
    s0.put hashLen (Event.mk typeX none) = Except.ok { s0 with
      queues := s0.queues.set (EventEngine.shardIndex hashLen s0.n typeX)
        (s0.queues.getD (EventEngine.shardIndex hashLen s0.n typeX) []
          ++ [Event.mk typeX none]) } :=
  ⟨by decide, rfl,
    (put_shard_routing hashLen s0 (Event.mk typeX none) (by decide) rfl).1⟩

end Howtrader
